import Mathlib

/-!
Shallow embedding of the hexpm client core (version ordering, bump, and the
PubGrub dependency-provider layer) together with proofs about the behaviour
of the embedded code.

The embedding follows `src/version.rs` and `src/lib.rs`.  Machine integers
(`u32`) are modelled as `Nat`: none of the verified properties depend on
wrap-around, and the source would panic on overflow rather than wrap.
Rust `String` values are modelled as Lean `String`; Rust's byte-wise string
ordering coincides with character-code ordering on valid UTF-8 data.
-/

namespace Hexpm

/-- Rust `u32::cmp` (from the derived `Ord` used by the tuple comparison). -/
def natCmp (a b : Nat) : Ordering :=
  if a < b then .lt else if b < a then .gt else .eq

/-- Rust `char`/byte comparison: compare by code point. -/
def charCmp (a b : Char) : Ordering :=
  natCmp a.toNat b.toNat

/-- Rust slice/`Vec` lexicographic comparison (`[T]::cmp`), parameterised by
the element comparator. -/
def lexCmp (c : α → α → Ordering) : List α → List α → Ordering
  | [], [] => .eq
  | [], _ :: _ => .lt
  | _ :: _, [] => .gt
  | a :: as, b :: bs =>
    match c a b with
    | .eq => lexCmp c as bs
    | o => o

/-- Rust `String::cmp`: byte-lexicographic comparison of the contents. -/
def strCmp (a b : String) : Ordering :=
  lexCmp charCmp a.data b.data

/-- `version.rs` `Identifier`: `Numeric(u32) | AlphaNumeric(String)`. -/
inductive Identifier where
  | numeric (n : Nat)
  | alphaNumeric (s : String)
deriving Repr, DecidableEq

/-- The derived `Ord` on `Identifier`: `Numeric` sorts before `AlphaNumeric`
(constructor order), numerics numerically, strings byte-lexicographically. -/
def identifierCmp : Identifier → Identifier → Ordering
  | .numeric a, .numeric b => natCmp a b
  | .numeric _, .alphaNumeric _ => .lt
  | .alphaNumeric _, .numeric _ => .gt
  | .alphaNumeric a, .alphaNumeric b => strCmp a b

/-- Comparison of the slices wrapped by `PreOrder` (Rust `self.0.cmp(other.0)`). -/
def identListCmp : List Identifier → List Identifier → Ordering :=
  lexCmp identifierCmp

/-- `version.rs` `Ord for PreOrder`: an empty pre-release list is greater than
any non-empty one; otherwise compare the identifier slices. -/
def preOrderCmp (a b : List Identifier) : Ordering :=
  if a.isEmpty && b.isEmpty then .eq
  else if a.isEmpty then .gt
  else if b.isEmpty then .lt
  else identListCmp a b

/-- `version.rs` `Version`. -/
structure Version where
  major : Nat
  minor : Nat
  patch : Nat
  pre : List Identifier
  build : Option String
deriving Repr, DecidableEq

/-- `Version::new`. -/
def Version.new (major minor patch : Nat) : Version :=
  ⟨major, minor, patch, [], none⟩

/-- `Version::is_pre`. -/
def Version.isPre (v : Version) : Bool :=
  !v.pre.isEmpty

/-- `version.rs` `Ord for Version`: compare `tuple()` values, i.e. the
quadruple `(major, minor, patch, PreOrder(pre))` lexicographically.  The
`build` field does not participate. -/
def versionCmp (a b : Version) : Ordering :=
  (natCmp a.major b.major).then
    ((natCmp a.minor b.minor).then
      ((natCmp a.patch b.patch).then (preOrderCmp a.pre b.pre)))

/-- `Version::bump_patch`. -/
def Version.bumpPatch (v : Version) : Version :=
  ⟨v.major, v.minor, v.patch + 1, [], none⟩

/-- `version.rs` `AlphaOrNumeric`. -/
inductive AlphaOrNumeric where
  | alpha (s : String)
  | numeric (n : Nat)
deriving Repr, DecidableEq

/-- Value of a pure-decimal string, as `str::parse::<u32>` computes it. -/
def decToNat (s : String) : Nat :=
  s.data.foldl (fun acc c => acc * 10 + (c.toNat - 48)) 0

/-- The segment-flushing step of `split_alphanumeric`: classify the current
segment as numeric if it contains a digit, otherwise alphabetic, and append
it (an empty segment is skipped). -/
def pushSegment (segments : List AlphaOrNumeric) (current : String) : List AlphaOrNumeric :=
  if current.isEmpty then segments
  else if current.data.any (fun c => c.isDigit) then
    segments ++ [AlphaOrNumeric.numeric (decToNat current)]
  else
    segments ++ [AlphaOrNumeric.alpha current]

/-- Loop of `split_alphanumeric` over the characters, carrying the segment
list, current segment, and whether the previous character was numeric. -/
def splitAlphanumericAux :
    List Char → List AlphaOrNumeric → String → Option Bool → List AlphaOrNumeric
  | [], segments, current, _ => pushSegment segments current
  | c :: rest, segments, current, prev =>
    let isNum := c.isDigit
    match prev with
    | some p =>
      if p == isNum then
        splitAlphanumericAux rest segments (current.push c) prev
      else
        splitAlphanumericAux rest (pushSegment segments current)
          (String.singleton c) (some isNum)
    | none =>
      splitAlphanumericAux rest (pushSegment segments current)
        (String.singleton c) (some isNum)

/-- `version.rs` `split_alphanumeric`: split a string into maximal runs of
digits / non-digits. -/
def splitAlphanumeric (s : String) : List AlphaOrNumeric :=
  splitAlphanumericAux s.data [] ("") none

/-- Apply a function to the last element of a list (Rust `last_mut`). The
empty case is unreachable in `bump` (the source unwraps). -/
def mapLast (f : α → α) : List α → List α
  | [] => []
  | [a] => [f a]
  | a :: rest => a :: mapLast f rest

/-- The in-place update `Version::bump` performs on the last alphanumeric
segment: a numeric run is incremented, an alphabetic run gets `'1'` pushed. -/
def bumpSegment : AlphaOrNumeric → AlphaOrNumeric
  | .numeric n => .numeric (n + 1)
  | .alpha s => .alpha (s.push '1')

/-- Rejoining of the segments in `Version::bump` (numeric segments printed
back with `to_string`). -/
def joinSegments (segments : List AlphaOrNumeric) : String :=
  String.join (segments.map fun seg =>
    match seg with
    | .alpha s => s
    | .numeric n => toString n)

/-- The update `Version::bump` applies to the last pre-release identifier. -/
def bumpIdentifier : Identifier → Identifier
  | .numeric n => .numeric (n + 1)
  | .alphaNumeric s =>
    .alphaNumeric (joinSegments (mapLast bumpSegment (splitAlphanumeric s)))

/-- `version.rs` `Version::bump`: for a pre-release version, increment the
last pre-release identifier (splitting an alphanumeric identifier into
digit / non-digit runs and bumping the last run) and clear `build`;
otherwise `bump_patch`. -/
def Version.bump (v : Version) : Version :=
  if v.isPre then
    ⟨v.major, v.minor, v.patch, mapLast bumpIdentifier v.pre, none⟩
  else
    v.bumpPatch

/-- The membership test of `pubgrub::Range::between(lo, hi)`: the half-open
interval `[lo, hi)` in the version order. -/
def rangeBetween (lo hi : Version) : Version → Bool := fun x =>
  (versionCmp lo x != .gt) && (versionCmp x hi == .lt)

/-- `version.rs` `exact`: the range `[v, bump(v))`. -/
def exact (v : Version) : Version → Bool :=
  rangeBetween v v.bump

/-- The pre-release version `1.0.0-rc9`. -/
def vRc9 : Version := ⟨1, 0, 0, [.alphaNumeric ("rc9")], none⟩

/-- The pre-release version `1.0.0-rc10`. -/
def vRc10 : Version := ⟨1, 0, 0, [.alphaNumeric ("rc10")], none⟩

/-- The pre-release version `1.0.1-0`. -/
def v101pre0 : Version := ⟨1, 0, 1, [.numeric 0], none⟩

/-- The version `1.0.0+a`. -/
def vBuildA : Version := ⟨1, 0, 0, [], some ("a")⟩

/-- The version `1.0.0+b`. -/
def vBuildB : Version := ⟨1, 0, 0, [], some ("b")⟩

/-- `lib.rs` `RetirementReason`. -/
inductive RetirementReason where
  | other
  | invalid
  | security
  | deprecated
  | renamed
deriving Repr, DecidableEq

/-- `lib.rs` `RetirementStatus`. -/
structure RetirementStatus where
  reason : RetirementReason
  message : String
deriving Repr, DecidableEq

/-- The membership function of a `pubgrub::Range<Version>`.  The pubgrub
range type is an external dependency; the resolver only observes it through
`contains`, so it is embedded as its characteristic function. -/
def PubgrubRange : Type := Version → Bool

/-- `version.rs` `Range`: the original textual spec plus the compiled
algebraic range. -/
structure Range where
  spec : String
  range : PubgrubRange

/-- `lib.rs` `Dependency`. -/
structure Dependency where
  requirement : Range
  optional : Bool
  app : Option String
  repository : Option String

/-- `lib.rs` `Release<()>` (the `meta: ()` phantom field is omitted). -/
structure Release where
  version : Version
  requirements : List (String × Dependency)
  retirementStatus : Option RetirementStatus
  outerChecksum : List Nat

/-- `lib.rs` `Release::is_retired`. -/
def Release.isRetired (r : Release) : Bool :=
  r.retirementStatus.isSome

/-- Modelled from the spec: `Release::is_pre` is called by
`ensure_package_fetched` (the partition step of §4.4) but its definition is
not among the provided sources; a release is a pre-release exactly when its
version has a non-empty pre list. -/
def Release.isPre (r : Release) : Bool :=
  r.version.isPre

/-- `lib.rs` `Package`. -/
structure Package where
  name : String
  repository : String
  releases : List Release

/-- `Display for Identifier`. -/
def identifierToString : Identifier → String
  | .numeric n => toString n
  | .alphaNumeric s => s

/-- `Display for Version`. -/
def versionToString (v : Version) : String :=
  toString v.major ++ (".") ++ toString v.minor ++ (".") ++ toString v.patch
    ++ (match v.pre with
        | [] => ""
        | pre => ("-") ++ String.intercalate (".") (pre.map identifierToString))
    ++ (match v.build with
        | none => ""
        | some b => ("+") ++ b)

/-- `HashMap::get` for the association-list model of the provider's maps. -/
def lookupAssoc (m : List (String × α)) (k : String) : Option α :=
  match m with
  | [] => none
  | (k', v) :: rest => if k' = k then some v else lookupAssoc rest k

/-- `HashMap::insert` (replacing any existing entry for the key). -/
def insertAssoc (m : List (String × α)) (k : String) (v : α) :
    List (String × α) :=
  match m with
  | [] => [(k, v)]
  | (k', v') :: rest =>
    if k' = k then (k, v) :: rest else (k', v') :: insertAssoc rest k v

/-- Modelled from the spec: `Dependency::from_version` is called by
`root_dependencies` but its definition is not among the provided sources;
§4.4 step 1 of the spec records a locked entry as the mandatory dependency
`Dependency(exact(version))`. -/
def Dependency.fromVersion (v : Version) : Dependency :=
  { requirement := { spec := versionToString v, range := exact v }
    optional := false
    app := none
    repository := none }

/-- Modelled from the spec: `Dependency::from_range` is called by
`root_dependencies` but its definition is not among the provided sources;
§4.4 step 2 of the spec wraps the caller-supplied range as a mandatory
dependency. -/
def Dependency.fromRange (r : Range) : Dependency :=
  { requirement := r
    optional := false
    app := none
    repository := none }

/-- `version.rs` `IncompatibleLockedVersion`. -/
structure IncompatibleLockedVersion where
  package : String
  requirement : Range
  version : Version

/-- The loop of `root_dependencies` over the caller-supplied base
requirements, threading the accumulated requirement map. -/
def rootDependenciesGo (locked : List (String × Version)) :
    List (String × Range) → List (String × Dependency) →
      Except IncompatibleLockedVersion (List (String × Dependency))
  | [], requirements => .ok requirements
  | (name, range) :: rest, requirements =>
    match lookupAssoc locked name with
    | none =>
      rootDependenciesGo locked rest
        (insertAssoc requirements name (Dependency.fromRange range))
    | some lockedVersion =>
      if range.range lockedVersion then
        rootDependenciesGo locked rest requirements
      else
        .error ⟨name, range, lockedVersion⟩

/-- `version.rs` `root_dependencies`: start from the locked entries as hard
requirements, then fold in the caller-supplied requirements, failing on the
first requirement that names a locked package whose locked version it does
not contain. -/
def rootDependencies (baseRequirements : List (String × Range))
    (locked : List (String × Version)) :
    Except IncompatibleLockedVersion (List (String × Dependency)) :=
  rootDependenciesGo locked baseRequirements
    (locked.map fun nv => (nv.1, Dependency.fromVersion nv.2))

/-- `version.rs` `DependencyProvider` state: the interior-mutable package
cache, the remote fetcher, and the locked map. -/
structure DependencyProvider where
  packages : List (String × Package)
  remote : String → Except String Package
  locked : List (String × Version)

/-- `DependencyProvider::new`. -/
def DependencyProvider.new (remote : String → Except String Package)
    (root : Package) (locked : List (String × Version)) :
    DependencyProvider :=
  ⟨[(root.name, root)], remote, locked⟩

/-- The ascending order used by `sort_by(|a, b| a.version.cmp(&b.version))`. -/
def releaseLe (a b : Release) : Prop :=
  versionCmp a.version b.version ≠ .gt

instance : DecidableRel releaseLe := fun a b =>
  inferInstanceAs (Decidable (versionCmp a.version b.version ≠ .gt))

/-- `version.rs` `DependencyProvider::ensure_package_fetched`: return at
once if the package is cached; otherwise fetch it, sort the releases by
version ascending (a stable sort), reverse to descending, partition off the
pre-releases and append them after the non-pre releases, and cache the
result. -/
def ensurePackageFetched (p : DependencyProvider) (name : String) :
    Except String DependencyProvider :=
  match lookupAssoc p.packages name with
  | some _ => .ok p
  | none =>
    match p.remote name with
    | .error e => .error e
    | .ok package =>
      let releases := (List.insertionSort releaseLe package.releases).reverse
      let parts := releases.partition Release.isPre
      let canonical : Package := ⟨package.name, package.repository, parts.2 ++ parts.1⟩
      .ok ⟨insertAssoc p.packages name canonical, p.remote, p.locked⟩

/-- The release list the provider sees for a package
(`packages.get(name).into_iter().flat_map(|p| p.releases.iter())`). -/
def releasesOf (p : DependencyProvider) (name : String) : List Release :=
  match lookupAssoc p.packages name with
  | none => []
  | some pkg => pkg.releases

/-- One step of Rust `Iterator::max` (keeps the later element on ties). -/
def maxStep (acc : Option Version) (v : Version) : Option Version :=
  match acc with
  | none => some v
  | some m => if versionCmp v m = .lt then some m else some v

/-- Rust `Iterator::max` over versions. -/
def maxVersion (l : List Version) : Option Version :=
  l.foldl maxStep none

/-- The `compatible_packages` iterator of `choose_version`: the versions of
the cached releases that the range contains. -/
def satVersions (p : DependencyProvider) (name : String)
    (range : PubgrubRange) : List Version :=
  ((releasesOf p name).filter (fun r => range r.version)).map
    (fun r => r.version)

/-- `version.rs` `DependencyProvider::choose_version`: after ensuring the
package is fetched, take the maximum of the non-pre releases whose version
the range contains, and fall back to the maximum of all contained releases
(pre included) when there is none. -/
def chooseVersion (p : DependencyProvider) (name : String)
    (range : PubgrubRange) : Except String (Option Version) :=
  match ensurePackageFetched p name with
  | .error e => .error e
  | .ok fetched =>
    match maxVersion ((satVersions fetched name range).filter
        (fun v => !v.isPre)) with
    | some v => .ok (some v)
    | none => .ok (maxVersion (satVersions fetched name range))

/-- `pubgrub::Dependencies`, with the solver's `M = String` metadata. -/
inductive Dependencies where
  | unavailable (msg : String)
  | available (deps : List (String × PubgrubRange))

/-- `version.rs` `DependencyProvider::get_dependencies`: ensure the package
is fetched, locate the release carrying exactly the requested version,
report unavailability when it is absent or when it is retired without being
the locked version, and otherwise return its requirement ranges.  The
updated provider state is returned alongside the result. -/
def providerGetDependencies (p : DependencyProvider) (name : String)
    (version : Version) :
    Except String (DependencyProvider × Dependencies) :=
  match ensurePackageFetched p name with
  | .error e => .error e
  | .ok fetched =>
    match (releasesOf fetched name).find? (fun r => r.version == version) with
    | none =>
      .ok (fetched, .unavailable (("version ") ++ versionToString version
        ++ (" of package ") ++ name ++ (" not found")))
    | some release =>
      if release.isRetired && !(lookupAssoc fetched.locked name == some version) then
        .ok (fetched, .unavailable (("version ") ++ versionToString version
          ++ (" of package ") ++ name ++ (" is retired")))
      else
        .ok (fetched, .available (release.requirements.foldl
          (fun m nd => insertAssoc m nd.1 nd.2.requirement.range) []))

/-- `version.rs` `DependencyError`.  The opaque `PubGrubError` payload is
modelled as the message string it renders to. -/
inductive DependencyError where
  | incompatibleLockedVersion (e : IncompatibleLockedVersion)
  | resolutionError (e : String)

/-- The synthetic root package `resolve_versions` constructs at version
`0.0.0` with the computed root requirements. -/
def rootPackage (rootName : String)
    (requirements : List (String × Dependency)) : Package :=
  { name := rootName
    repository := "local"
    releases := [{ version := Version.new 0 0 0
                   outerChecksum := []
                   retirementStatus := none
                   requirements := requirements }] }

/-- `version.rs` `resolve_versions`: build the root requirements (failing
early with `IncompatibleLockedVersion`), construct the synthetic root
package and provider, run the PubGrub solve, and strip the root from the
solution.  The external `pubgrub::resolve` is passed in as `solver`. -/
def resolveVersions
    (solver : DependencyProvider → String → Version →
      Except String (List (String × Version)))
    (remote : String → Except String Package) (rootName : String)
    (dependencies : List (String × Range))
    (locked : List (String × Version)) :
    Except DependencyError (List (String × Version)) :=
  match rootDependencies dependencies locked with
  | .error e => .error (.incompatibleLockedVersion e)
  | .ok requirements =>
    match solver (DependencyProvider.new remote (rootPackage rootName requirements) locked)
        rootName (Version.new 0 0 0) with
    | .error e => .error (.resolutionError e)
    | .ok packages => .ok (packages.filter (fun nv => !(nv.1 == rootName)))

/-- A range containing no versions at all, used as a concrete requirement. -/
def rangeNone : Range := ⟨("none"), fun _ => false⟩

/-- Concrete root requirements for the C3 witness: `a` required with an
unsatisfiable range. -/
def c3deps : List (String × Range) := [(("a"), rangeNone)]

/-- Concrete lock map for the C3 witness: `a` locked to `1.0.0`. -/
def c3locked : List (String × Version) := [(("a"), Version.new 1 0 0)]

/-- A release with the given version and no requirements. -/
def plainRelease (v : Version) : Release := ⟨v, [], none, []⟩

/-- The range accepting every version. -/
def rangeAll : PubgrubRange := fun _ => true

/-- Concrete package for the C4 witness: releases `1.1.0`, `1.0.0` and
`2.0.0-rc1`. -/
def c4pkg : Package :=
  ⟨("a"), ("hexpm"),
    [plainRelease (Version.new 1 1 0), plainRelease (Version.new 1 0 0),
      plainRelease ⟨2, 0, 0, [.alphaNumeric ("rc1")], none⟩]⟩

/-- Concrete provider for the C4 witness with package `a` already cached. -/
def c4provider : DependencyProvider :=
  ⟨[(("a"), c4pkg)], fun _ => .error (""), []⟩

/-- The requirement map `get_dependencies` returns for a release
(`deps.insert(name.clone(), range.clone())` over `release.requirements`). -/
def releaseDepsMap (requirements : List (String × Dependency)) :
    List (String × PubgrubRange) :=
  requirements.foldl (fun m nd => insertAssoc m nd.1 nd.2.requirement.range) []

/-- Retired release of version `1.0.0` for the C5 witness. -/
def c5release : Release :=
  ⟨Version.new 1 0 0, [], some ⟨.security, ("bad")⟩, []⟩

/-- Package holding only the retired release. -/
def c5pkg : Package := ⟨("a"), ("hexpm"), [c5release]⟩

/-- Provider with `a` cached and locked to the retired version `1.0.0`. -/
def c5provider : DependencyProvider :=
  ⟨[(("a"), c5pkg)], fun _ => .error (""), [(("a"), Version.new 1 0 0)]⟩

/-- The descending order on releases (later entries never have a greater
version). -/
def releaseGe (a b : Release) : Prop :=
  versionCmp b.version a.version ≠ .gt

/-- Unsorted package for the C7 witness: releases `1.0.0-rc1`, `1.1.0`,
`1.0.0` arrive in a scrambled order. -/
def c7pkg : Package :=
  ⟨("b"), ("hexpm"),
    [plainRelease ⟨1, 0, 0, [.alphaNumeric ("rc1")], none⟩,
      plainRelease (Version.new 1 1 0), plainRelease (Version.new 1 0 0)]⟩

/-- Provider with an empty cache whose fetcher serves `c7pkg`. -/
def c7provider : DependencyProvider :=
  ⟨[], fun _ => .ok c7pkg, []⟩

/-- Constant solver for the C10 witness: assigns the root and `a`. -/
def c10solver : DependencyProvider → String → Version →
    Except String (List (String × Version)) :=
  fun _ _ _ => .ok [(("root"), Version.new 0 0 0), (("a"), Version.new 1 0 0)]

/-- Fetcher for the C10 witness (never consulted by the constant solver). -/
def c10remote : String → Except String Package := fun _ => .error ("")

/-- Lock map for the C10 witness: `a` locked at `1.0.0`, mentioned by no
root requirement. -/
def c10locked : List (String × Version) := [(("a"), Version.new 1 0 0)]

/-- `lib.rs` `ApiError`.  Errors wrapping external payloads carry their
rendered message; `UnexpectedResponse` keeps the raw body bytes. -/
inductive ApiError where
  | jsonError (msg : String)
  | ioError (msg : String)
  | rateLimited
  | invalidCredentials
  | unexpectedResponse (status : Nat) (body : List Nat)
  | invalidPackageNameFormat (name : String)
  | incorrectPayloadSignature
  | invalidProtobuf (msg : String)
  | invalidVersionFormat (v : String)
  | notFound
  | invalidVersionRequirementFormat (s : String)
  | incorrectChecksum
  | invalidApiKey
  | forbidden
  | notReplacing
  | lateModification
deriving Repr, DecidableEq

/-- The chunked read loop of `read_and_check_body`: consume the reader 1024
bytes at a time, feeding each chunk to the digest context (first component)
and accumulating the body (second component). -/
def readAndCheckBodyAux (input hashed body : List Nat) :
    List Nat × List Nat :=
  if input.isEmpty then (hashed, body)
  else
    readAndCheckBodyAux (input.drop 1024) (hashed ++ input.take 1024)
      (body ++ input.take 1024)
termination_by input.length
decreasing_by
  rw [List.length_drop]
  rename_i h
  have : input ≠ [] := by
    intro he
    rw [he] at h
    simp at h
  have : 0 < input.length := List.length_pos.mpr this
  omega

/-- `lib.rs` `read_and_check_body`: read the body in chunks, digest it with
SHA-256 (an external primitive, passed in as `sha256`), and fail with
`IncorrectChecksum` unless the digest equals the expected checksum. -/
def readAndCheckBody (sha256 : List Nat → List Nat) (input : List Nat)
    (checksum : List Nat) : Except ApiError (List Nat) :=
  let hb := readAndCheckBodyAux input [] []
  if sha256 hb.1 == checksum then .ok hb.2
  else .error .incorrectChecksum

/-- `lib.rs` `get_package_tarball_response`: map the HTTP status, then run
the checksum-verified body read. -/
def getPackageTarballResponse (sha256 : List Nat → List Nat) (status : Nat)
    (body : List Nat) (checksum : List Nat) : Except ApiError (List Nat) :=
  if status == 200 then readAndCheckBody sha256 body checksum
  else if status == 403 then .error .notFound
  else if status == 404 then .error .notFound
  else .error (.unexpectedResponse status body)

/-- Modelled from the spec: character class of pre-release identifiers
(`[0-9A-Za-z-]`, §3).  The version parser itself lives in the `parser`
module, which is not among the provided sources. -/
def isIdentChar (c : Char) : Bool :=
  c.isAlphanum || c == '-'

/-- Modelled from the spec: character class of build metadata
(`[0-9A-Za-z.-]+`, §3). -/
def isBuildChar (c : Char) : Bool :=
  c.isAlphanum || c == '-' || c == '.'

/-- Split a character list at every occurrence of the separator (the
semantics of `str::split` with a one-character pattern). -/
def splitOnChar (sep : Char) : List Char → List (List Char)
  | [] => [[]]
  | c :: rest =>
    if c == sep then [] :: splitOnChar sep rest
    else
      match splitOnChar sep rest with
      | [] => [[c]]
      | g :: gs => (c :: g) :: gs

/-- Numeric value of a digit run. -/
def charsToNat (cs : List Char) : Nat :=
  cs.foldl (fun acc c => acc * 10 + (c.toNat - 48)) 0

/-- Modelled from the spec: an `INT` component of `M.m.p` — a decimal with
no leading zero unless it is `0` itself (§4.1). -/
def parseNumericComponent (cs : List Char) : Option Nat :=
  if cs.isEmpty then none
  else if !(cs.all Char.isDigit) then none
  else if decide (cs.length > 1) && cs.head? == some '0' then none
  else some (charsToNat cs)

/-- Modelled from the spec: classification of a pre-release identifier —
`Numeric` when it is a pure decimal with no leading zero (or the single
digit `0`), otherwise `AlphaNumeric` (§4.1). -/
def classifyIdent (cs : List Char) : Option Identifier :=
  if cs.isEmpty then none
  else if !(cs.all isIdentChar) then none
  else if cs.all Char.isDigit then
    if decide (cs.length > 1) && cs.head? == some '0' then
      some (.alphaNumeric (String.mk cs))
    else some (.numeric (charsToNat cs))
  else some (.alphaNumeric (String.mk cs))

/-- Modelled from the spec: `PRE_IDS` — a non-empty dot-separated list of
identifiers (§4.1). -/
def parsePre (cs : List Char) : Option (List Identifier) :=
  if cs.isEmpty then none
  else (splitOnChar '.' cs).mapM classifyIdent

/-- Modelled from the spec: the version core `INT "." INT "." INT
(- PRE_IDS)?` with the already-detached build part (§4.1). -/
def parseCore (core : List Char) (build : Option String) : Option Version :=
  let mmp := core.takeWhile (fun c => c != '-')
  let rest := core.drop mmp.length
  match splitOnChar '.' mmp with
  | [ma, mi, pa] =>
    match parseNumericComponent ma, parseNumericComponent mi,
        parseNumericComponent pa with
    | some major, some minor, some patch =>
      if rest.isEmpty then some ⟨major, minor, patch, [], build⟩
      else
        match parsePre (rest.drop 1) with
        | some pre => some ⟨major, minor, patch, pre, build⟩
        | none => none
    | _, _, _ => none
  | _ => none

/-- Modelled from the spec: `Version::parse` — the grammar
`INT "." INT "." INT (- PRE_IDS)? (+ BUILD)?` rejecting trailing input and
malformed components (§4.1); the concrete parser module is not among the
provided sources. -/
def parseVersion (s : String) : Option Version :=
  match splitOnChar '+' s.data with
  | [core] => parseCore core none
  | [core, build] =>
    if build.isEmpty || !(build.all isBuildChar) then none
    else parseCore core (some (String.mk build))
  | _ => none

/-- The protobuf `Dependency` message as consumed by `proto_to_dep`. -/
structure ProtoDependency where
  package : String
  requirement : String
  optionalDep : Option Bool
  app : Option String
  repository : Option String

/-- The protobuf `RetirementStatus` message. -/
structure ProtoRetirementStatus where
  reason : RetirementReason
  message : String

/-- The protobuf `Release` message as consumed by `proto_to_release`. -/
structure ProtoRelease where
  version : String
  dependencies : List ProtoDependency
  retired : Option ProtoRetirementStatus
  outerChecksum : Option (List Nat)

/-- `lib.rs` `proto_to_retirement_status`. -/
def protoToRetirementStatus (status : Option ProtoRetirementStatus) :
    Option RetirementStatus :=
  status.map fun st => ⟨st.reason, st.message⟩

/-- `lib.rs` `proto_to_dep`.  `Range::new` belongs to the absent parser
module, so the range parser is passed in as `parseRange`; a parse failure
becomes `InvalidVersionFormat` carrying the requirement string. -/
def protoToDep (parseRange : String → Option Range)
    (dep : ProtoDependency) : Except ApiError (String × Dependency) :=
  match parseRange dep.requirement with
  | none => .error (.invalidVersionFormat dep.requirement)
  | some requirement =>
    .ok (dep.package,
      ⟨requirement, dep.optionalDep.isSome, dep.app, dep.repository⟩)

/-- Result of running code that may abort the process: either a value or a
panic with the `expect` message. -/
inductive PanicOr (α : Type) where
  | panics (msg : String)
  | ok (value : α)

/-- `lib.rs` `proto_to_release`: convert the dependencies (propagating their
errors as values), then parse the version string with
`.expect("Failed to parse version format from Hex")` — a PANIC, not an
error value, when the parse fails. -/
def protoToRelease (parseRange : String → Option Range)
    (release : ProtoRelease) : PanicOr (Except ApiError Release) :=
  match release.dependencies.mapM (protoToDep parseRange) with
  | .error e => .ok (.error e)
  | .ok deps =>
    match parseVersion release.version with
    | none => .panics ("Failed to parse version format from Hex")
    | some version =>
      .ok (.ok ⟨version, deps, protoToRetirementStatus release.retired,
        release.outerChecksum.getD []⟩)

/-- A protobuf release whose version string `1.0` does not parse. -/
def c8proto : ProtoRelease := ⟨("1.0"), [], none, none⟩

/-! ### Verified properties -/

theorem natCmp_eq_eq {a b : Nat} : natCmp a b = .eq ↔ a = b := by
  unfold natCmp; split <;> rename_i h
  · simp; omega
  · split <;> rename_i h' <;> simp <;> omega

theorem natCmp_eq_lt {a b : Nat} : natCmp a b = .lt ↔ a < b := by
  unfold natCmp; split <;> rename_i h
  · simp [h]
  · split <;> simp <;> omega

theorem natCmp_eq_gt {a b : Nat} : natCmp a b = .gt ↔ b < a := by
  unfold natCmp; split <;> rename_i h
  · simp; omega
  · split <;> rename_i h' <;> simp <;> omega

theorem natCmp_swap (a b : Nat) : natCmp a b = (natCmp b a).swap := by
  unfold natCmp; split <;> split <;> simp_all [Ordering.swap] <;> omega

theorem natCmp_self (a : Nat) : natCmp a a = .eq := by simp [natCmp]

theorem then_eq_lt {x y : Ordering} :
    x.then y = .lt ↔ x = .lt ∨ (x = .eq ∧ y = .lt) := by
  cases x <;> simp [Ordering.then]

theorem then_eq_gt {x y : Ordering} :
    x.then y = .gt ↔ x = .gt ∨ (x = .eq ∧ y = .gt) := by
  cases x <;> simp [Ordering.then]

theorem then_eq_eq {x y : Ordering} :
    x.then y = .eq ↔ x = .eq ∧ y = .eq := by
  cases x <;> simp [Ordering.then]

theorem then_swap (x y : Ordering) :
    (x.then y).swap = (x.swap).then (y.swap) := by
  cases x <;> rfl

theorem charCmp_eq_eq {a b : Char} : charCmp a b = .eq ↔ a = b := by
  unfold charCmp
  rw [natCmp_eq_eq]
  constructor
  · intro h
    have h2 := congrArg Char.ofNat h
    rwa [Char.ofNat_toNat, Char.ofNat_toNat] at h2
  · intro h; rw [h]

theorem charCmp_swap (a b : Char) : charCmp a b = (charCmp b a).swap :=
  natCmp_swap _ _

theorem charCmp_lt_trans {a b c : Char} (h1 : charCmp a b = .lt)
    (h2 : charCmp b c = .lt) : charCmp a c = .lt := by
  unfold charCmp at *
  rw [natCmp_eq_lt] at *
  omega

theorem lexCmp_cons (c : α → α → Ordering) (a b : α) (as bs : List α) :
    lexCmp c (a :: as) (b :: bs) = (c a b).then (lexCmp c as bs) := by
  cases h : c a b <;> simp [lexCmp, h, Ordering.then]

theorem lexCmp_eq_eq (c : α → α → Ordering) (hc : ∀ x y, c x y = .eq ↔ x = y) :
    ∀ l m, lexCmp c l m = .eq ↔ l = m := by
  intro l
  induction l with
  | nil => intro m; cases m <;> simp [lexCmp]
  | cons a as ih =>
    intro m
    cases m with
    | nil => simp [lexCmp]
    | cons b bs =>
      rw [lexCmp_cons, then_eq_eq, hc, ih]
      simp

theorem lexCmp_swap (c : α → α → Ordering) (hc : ∀ x y, c x y = (c y x).swap) :
    ∀ l m, lexCmp c l m = (lexCmp c m l).swap := by
  intro l
  induction l with
  | nil => intro m; cases m <;> simp [lexCmp, Ordering.swap]
  | cons a as ih =>
    intro m
    cases m with
    | nil => simp [lexCmp, Ordering.swap]
    | cons b bs =>
      rw [lexCmp_cons, lexCmp_cons, then_swap, hc a b, ih bs]

theorem lexCmp_lt_trans (c : α → α → Ordering)
    (hceq : ∀ x y, c x y = .eq ↔ x = y)
    (hctr : ∀ x y z, c x y = .lt → c y z = .lt → c x z = .lt) :
    ∀ l m n, lexCmp c l m = .lt → lexCmp c m n = .lt → lexCmp c l n = .lt := by
  intro l
  induction l with
  | nil =>
    intro m n h1 h2
    cases m with
    | nil => simp [lexCmp] at h1
    | cons b bs =>
      cases n with
      | nil => simp [lexCmp] at h2
      | cons e es => simp [lexCmp]
  | cons a as ih =>
    intro m n h1 h2
    cases m with
    | nil => simp [lexCmp] at h1
    | cons b bs =>
      cases n with
      | nil => simp [lexCmp] at h2
      | cons e es =>
        rw [lexCmp_cons, then_eq_lt] at h1 h2 ⊢
        rcases h1 with h1 | ⟨h1e, h1t⟩ <;> rcases h2 with h2 | ⟨h2e, h2t⟩
        · exact Or.inl (hctr a b e h1 h2)
        · rw [(hceq b e).mp h2e] at h1
          exact Or.inl h1
        · rw [← (hceq a b).mp h1e] at h2
          exact Or.inl h2
        · refine Or.inr ⟨?_, ih bs es h1t h2t⟩
          rw [(hceq a b).mp h1e, (hceq b e).mp h2e, hceq]

theorem lexCmp_le_trans (c : α → α → Ordering)
    (hceq : ∀ x y, c x y = .eq ↔ x = y)
    (hctr : ∀ x y z, c x y = .lt → c y z = .lt → c x z = .lt) :
    ∀ l m n, lexCmp c l m ≠ .gt → lexCmp c m n ≠ .gt → lexCmp c l n ≠ .gt := by
  intro l
  induction l with
  | nil =>
    intro m n _ _
    cases n <;> simp [lexCmp]
  | cons a as ih =>
    intro m n h1 h2
    cases m with
    | nil => simp [lexCmp] at h1
    | cons b bs =>
      cases n with
      | nil => simp [lexCmp] at h2
      | cons e es =>
        rw [Ne, lexCmp_cons, then_eq_gt] at h1 h2 ⊢
        push_neg at h1 h2 ⊢
        obtain ⟨h1g, h1t⟩ := h1
        obtain ⟨h2g, h2t⟩ := h2
        rcases hab : c a b with _ | _ | _
        · rcases hbe : c b e with _ | _ | _
          · have hae := hctr a b e hab hbe
            exact ⟨by simp [hae], fun he => by simp [hae] at he⟩
          · have hae : c a e = .lt := by rw [← (hceq b e).mp hbe]; exact hab
            exact ⟨by simp [hae], fun he => by simp [hae] at he⟩
          · exact absurd hbe h2g
        · have hab' := (hceq a b).mp hab
          rcases hbe : c b e with _ | _ | _
          · have hae : c a e = .lt := by rw [hab']; exact hbe
            exact ⟨by simp [hae], fun he => by simp [hae] at he⟩
          · have hbe' := (hceq b e).mp hbe
            have hae : c a e = .eq := (hceq a e).mpr (hab'.trans hbe')
            exact ⟨by simp [hae], fun _ => ih bs es (h1t hab) (h2t hbe)⟩
          · exact absurd hbe h2g
        · exact absurd hab h1g

theorem strCmp_eq_eq {a b : String} : strCmp a b = .eq ↔ a = b := by
  unfold strCmp
  rw [lexCmp_eq_eq charCmp (fun x y => charCmp_eq_eq)]
  constructor
  · intro h
    cases a; cases b
    exact congrArg String.mk h
  · intro h; rw [h]

theorem strCmp_swap (a b : String) : strCmp a b = (strCmp b a).swap :=
  lexCmp_swap charCmp charCmp_swap _ _

theorem strCmp_lt_trans {a b c : String} (h1 : strCmp a b = .lt)
    (h2 : strCmp b c = .lt) : strCmp a c = .lt :=
  lexCmp_lt_trans charCmp (fun _ _ => charCmp_eq_eq)
    (fun _ _ _ => charCmp_lt_trans) _ _ _ h1 h2

theorem identifierCmp_eq_eq {a b : Identifier} :
    identifierCmp a b = .eq ↔ a = b := by
  cases a <;> cases b <;> simp [identifierCmp, natCmp_eq_eq, strCmp_eq_eq]

theorem identifierCmp_swap (a b : Identifier) :
    identifierCmp a b = (identifierCmp b a).swap := by
  cases a <;> cases b
  · exact natCmp_swap _ _
  · rfl
  · rfl
  · exact strCmp_swap _ _

theorem identifierCmp_lt_trans {a b c : Identifier}
    (h1 : identifierCmp a b = .lt) (h2 : identifierCmp b c = .lt) :
    identifierCmp a c = .lt := by
  cases a <;> cases b <;> cases c <;>
    simp_all [identifierCmp, natCmp_eq_lt]
  · omega
  · exact strCmp_lt_trans h1 h2

theorem identListCmp_eq_eq {a b : List Identifier} :
    identListCmp a b = .eq ↔ a = b :=
  lexCmp_eq_eq identifierCmp (fun _ _ => identifierCmp_eq_eq) a b

theorem identListCmp_swap (a b : List Identifier) :
    identListCmp a b = (identListCmp b a).swap :=
  lexCmp_swap identifierCmp identifierCmp_swap a b

theorem identListCmp_lt_trans {a b c : List Identifier}
    (h1 : identListCmp a b = .lt) (h2 : identListCmp b c = .lt) :
    identListCmp a c = .lt :=
  lexCmp_lt_trans identifierCmp (fun _ _ => identifierCmp_eq_eq)
    (fun _ _ _ => identifierCmp_lt_trans) _ _ _ h1 h2

theorem identListCmp_le_trans {a b c : List Identifier}
    (h1 : identListCmp a b ≠ .gt) (h2 : identListCmp b c ≠ .gt) :
    identListCmp a c ≠ .gt :=
  lexCmp_le_trans identifierCmp (fun _ _ => identifierCmp_eq_eq)
    (fun _ _ _ => identifierCmp_lt_trans) _ _ _ h1 h2

theorem preOrderCmp_eq_eq {a b : List Identifier} :
    preOrderCmp a b = .eq ↔ a = b := by
  unfold preOrderCmp
  cases a <;> cases b <;> simp [List.isEmpty, identListCmp_eq_eq]

theorem preOrderCmp_swap (a b : List Identifier) :
    preOrderCmp a b = (preOrderCmp b a).swap := by
  unfold preOrderCmp
  cases a <;> cases b
  · rfl
  · rfl
  · rfl
  · simp only [List.isEmpty_cons, Bool.and_false, Bool.false_and, if_neg,
      Bool.false_eq_true, not_false_eq_true, if_false]
    exact identListCmp_swap _ _

theorem preOrderCmp_lt_trans {a b c : List Identifier}
    (h1 : preOrderCmp a b = .lt) (h2 : preOrderCmp b c = .lt) :
    preOrderCmp a c = .lt := by
  unfold preOrderCmp at *
  cases a <;> cases b <;> cases c <;> simp_all [List.isEmpty]
  exact identListCmp_lt_trans h1 h2

theorem preOrderCmp_le_trans {a b c : List Identifier}
    (h1 : preOrderCmp a b ≠ .gt) (h2 : preOrderCmp b c ≠ .gt) :
    preOrderCmp a c ≠ .gt := by
  unfold preOrderCmp at *
  cases a <;> cases b <;> cases c <;> simp_all [List.isEmpty]
  exact identListCmp_le_trans h1 h2

theorem preOrderCmp_self (a : List Identifier) : preOrderCmp a a = .eq :=
  preOrderCmp_eq_eq.mpr rfl

theorem natThenCmp_lt_trans {α : Type} (f : α → Nat) (t : α → α → Ordering)
    (ht : ∀ a b c, t a b = .lt → t b c = .lt → t a c = .lt)
    (a b c : α)
    (h1 : (natCmp (f a) (f b)).then (t a b) = .lt)
    (h2 : (natCmp (f b) (f c)).then (t b c) = .lt) :
    (natCmp (f a) (f c)).then (t a c) = .lt := by
  rw [then_eq_lt, natCmp_eq_lt, natCmp_eq_eq] at h1 h2 ⊢
  rcases h1 with h1 | ⟨h1e, h1t⟩ <;> rcases h2 with h2 | ⟨h2e, h2t⟩
  · left; omega
  · left; omega
  · left; omega
  · right
    exact ⟨by omega, ht a b c h1t h2t⟩

theorem natThenCmp_le_trans {α : Type} (f : α → Nat) (t : α → α → Ordering)
    (ht : ∀ a b c, t a b ≠ .gt → t b c ≠ .gt → t a c ≠ .gt)
    (a b c : α)
    (h1 : (natCmp (f a) (f b)).then (t a b) ≠ .gt)
    (h2 : (natCmp (f b) (f c)).then (t b c) ≠ .gt) :
    (natCmp (f a) (f c)).then (t a c) ≠ .gt := by
  rw [Ne, then_eq_gt, natCmp_eq_gt, natCmp_eq_eq] at h1 h2 ⊢
  push_neg at h1 h2 ⊢
  refine ⟨by omega, fun hac => ?_⟩
  have hab : f a = f b := by omega
  have hbc : f b = f c := by omega
  exact ht a b c (h1.2 hab) (h2.2 hbc)

theorem versionCmp_lt_trans {a b c : Version} (h1 : versionCmp a b = .lt)
    (h2 : versionCmp b c = .lt) : versionCmp a c = .lt := by
  unfold versionCmp at *
  refine natThenCmp_lt_trans Version.major
    (fun x y => (natCmp x.minor y.minor).then
      ((natCmp x.patch y.patch).then (preOrderCmp x.pre y.pre)))
    ?_ a b c h1 h2
  intro a b c h1 h2
  refine natThenCmp_lt_trans Version.minor
    (fun x y => (natCmp x.patch y.patch).then (preOrderCmp x.pre y.pre))
    ?_ a b c h1 h2
  intro a b c h1 h2
  refine natThenCmp_lt_trans Version.patch
    (fun x y => preOrderCmp x.pre y.pre) ?_ a b c h1 h2
  intro a b c h1 h2
  exact preOrderCmp_lt_trans h1 h2

theorem versionCmp_le_trans {a b c : Version} (h1 : versionCmp a b ≠ .gt)
    (h2 : versionCmp b c ≠ .gt) : versionCmp a c ≠ .gt := by
  unfold versionCmp at *
  refine natThenCmp_le_trans Version.major
    (fun x y => (natCmp x.minor y.minor).then
      ((natCmp x.patch y.patch).then (preOrderCmp x.pre y.pre)))
    ?_ a b c h1 h2
  intro a b c h1 h2
  refine natThenCmp_le_trans Version.minor
    (fun x y => (natCmp x.patch y.patch).then (preOrderCmp x.pre y.pre))
    ?_ a b c h1 h2
  intro a b c h1 h2
  refine natThenCmp_le_trans Version.patch
    (fun x y => preOrderCmp x.pre y.pre) ?_ a b c h1 h2
  intro a b c h1 h2
  exact preOrderCmp_le_trans h1 h2

theorem versionCmp_swap (a b : Version) :
    versionCmp a b = (versionCmp b a).swap := by
  unfold versionCmp
  rw [then_swap, then_swap, then_swap, natCmp_swap a.major, natCmp_swap a.minor,
    natCmp_swap a.patch, preOrderCmp_swap a.pre]

theorem versionCmp_eq_eq {a b : Version} :
    versionCmp a b = .eq ↔
      a.major = b.major ∧ a.minor = b.minor ∧ a.patch = b.patch ∧
        a.pre = b.pre := by
  unfold versionCmp
  rw [then_eq_eq, then_eq_eq, then_eq_eq, natCmp_eq_eq, natCmp_eq_eq,
    natCmp_eq_eq, preOrderCmp_eq_eq]

theorem versionCmp_self (a : Version) : versionCmp a a = .eq :=
  versionCmp_eq_eq.mpr ⟨rfl, rfl, rfl, rfl⟩

/-- C1: the claim that `v < bump(v)` for every version, with no expressible
version strictly between, FAILS on the code.  At `v = 1.0.0-rc9` the bump of
the last alphanumeric identifier turns the digit run `9` into `10`, giving
`1.0.0-rc10`, and the byte-lexicographic identifier order puts `rc10`
BELOW `rc9`; hence `bump(v) < v` and the single-version range
`exact(v) = [v, bump(v))` is empty and does not even contain `v` itself.
Moreover even for the non-pre version `1.0.0` (where `bump = bump_patch`)
the grammar can express `1.0.1-0` strictly between `1.0.0` and `1.0.1`. -/
theorem bump_rc9_decreases :
    Version.bump vRc9 = vRc10
    ∧ versionCmp (Version.bump vRc9) vRc9 = .lt
    ∧ exact vRc9 vRc9 = false
    ∧ versionCmp (Version.new 1 0 0) v101pre0 = .lt
    ∧ versionCmp v101pre0 (Version.bump (Version.new 1 0 0)) = .lt := by
  refine ⟨by decide, by decide, by decide, by decide, by decide⟩

/-- C2 counterexample: `1.0.0+a` and `1.0.0+b` are NOT equal — the derived
structural equality on `Version` (Rust `PartialEq`) compares the `build`
field — even though their comparison is `Equal`.  The claim that "equality
on versions disregards build" fails on the code. -/
theorem build_differs_not_equal :
    vBuildA ≠ vBuildB ∧ versionCmp vBuildA vBuildB = .eq := by
  refine ⟨by decide, by decide⟩

/-- C2 (amended): for all versions that agree on major, minor, patch and
pre, the comparison (`Ord`) is `Equal` — ordering disregards `build` — but
structural equality (`PartialEq`) distinguishes differing `build` values,
so such versions are not equal when their `build` fields differ. -/
theorem versionCmp_ignores_build (a b : Version)
    (h1 : a.major = b.major) (h2 : a.minor = b.minor)
    (h3 : a.patch = b.patch) (h4 : a.pre = b.pre) :
    versionCmp a b = .eq ∧ (a.build ≠ b.build → a ≠ b) := by
  refine ⟨versionCmp_eq_eq.mpr ⟨h1, h2, h3, h4⟩, fun hb hab => hb ?_⟩
  rw [hab]

/-- Witness for C2 at `1.0.0+a` versus `1.0.0+b`. -/
theorem versionCmp_ignores_build_witness :
    versionCmp vBuildA vBuildB = .eq ∧ vBuildA ≠ vBuildB := by
  have h := versionCmp_ignores_build vBuildA vBuildB rfl rfl rfl rfl
  exact ⟨h.1, h.2 (by decide)⟩

theorem identifierCmp_self (a : Identifier) : identifierCmp a a = .eq :=
  identifierCmp_eq_eq.mpr rfl

theorem lexCmp_self_append (c : α → α → Ordering) (hrefl : ∀ x, c x x = .eq) :
    ∀ (as bs : List α), bs ≠ [] → lexCmp c as (as ++ bs) = .lt := by
  intro as
  induction as with
  | nil =>
    intro bs hbs
    cases bs with
    | nil => exact absurd rfl hbs
    | cons b bs => simp [lexCmp]
  | cons a as ih =>
    intro bs hbs
    rw [List.cons_append, lexCmp_cons, hrefl a]
    simpa [Ordering.then] using ih bs hbs

theorem versionCmp_of_eq_mmp {a b : Version} (h1 : a.major = b.major)
    (h2 : a.minor = b.minor) (h3 : a.patch = b.patch) :
    versionCmp a b = preOrderCmp a.pre b.pre := by
  unfold versionCmp
  rw [h1, h2, h3, natCmp_self, natCmp_self, natCmp_self]
  rfl

/-- C6: with equal `major`, `minor`, `patch`, comparison follows the
pre-release rules of `Ord for PreOrder`:
an empty pre-release list is greater than any non-empty one
(in particular `1.0.0 > 1.0.0-rc1`); two non-empty lists compare
element-by-element through the identifier order, under which a `Numeric`
identifier is always below an `AlphaNumeric` one, `Numeric` identifiers
compare numerically and `AlphaNumeric` identifiers compare in byte
(character-code) order; and a non-empty proper prefix of a longer list
compares less than it. -/
theorem pre_release_ordering_rules :
    (∀ a b : Version, a.major = b.major → a.minor = b.minor →
      a.patch = b.patch →
      ((a.pre = [] → b.pre ≠ [] → versionCmp a b = .gt)
        ∧ (a.pre ≠ [] → b.pre ≠ [] →
            versionCmp a b = identListCmp a.pre b.pre)
        ∧ (a.pre ≠ [] → ∀ bs, bs ≠ [] → b.pre = a.pre ++ bs →
            versionCmp a b = .lt)))
    ∧ (∀ m n : Nat, identifierCmp (.numeric m) (.numeric n) = .lt ↔ m < n)
    ∧ (∀ (n : Nat) (s : String),
        identifierCmp (.numeric n) (.alphaNumeric s) = .lt)
    ∧ (∀ s t : String,
        identifierCmp (.alphaNumeric s) (.alphaNumeric t) = strCmp s t)
    ∧ versionCmp (Version.new 1 0 0) ⟨1, 0, 0, [.alphaNumeric ("rc1")], none⟩
        = .gt := by
  refine ⟨?_, ?_, ?_, ?_, by decide⟩
  · intro a b h1 h2 h3
    rw [versionCmp_of_eq_mmp h1 h2 h3]
    refine ⟨?_, ?_, ?_⟩
    · intro ha hb
      unfold preOrderCmp
      cases hbp : b.pre with
      | nil => exact absurd hbp hb
      | cons x xs => simp [ha]
    · intro ha hb
      unfold preOrderCmp
      simp [List.isEmpty_iff, ha, hb]
    · intro ha bs hbs hb
      have hb' : b.pre ≠ [] := by
        rw [hb]
        cases hap : a.pre with
        | nil => exact absurd hap ha
        | cons x xs => simp
      unfold preOrderCmp
      cases hap : a.pre with
      | nil => exact absurd hap ha
      | cons x xs =>
        cases hbp : b.pre with
        | nil => exact absurd hbp hb'
        | cons y ys =>
          rw [← hap, ← hbp]
          simp only [hap, hbp, List.isEmpty_cons, Bool.false_and,
            Bool.false_eq_true, not_false_eq_true, if_false, if_neg]
          rw [← hap, ← hbp, hb]
          exact lexCmp_self_append identifierCmp identifierCmp_self
            a.pre bs hbs
  · intro m n
    simp [identifierCmp, natCmp_eq_lt]
  · intro n s
    rfl
  · intro s t
    rfl

/-- Witness for C6 at concrete versions: `1.0.0 > 1.0.0-rc1`,
`1.0.0-1 < 1.0.0-a` element-wise, `1.0.0-rc1 < 1.0.0-rc1.0`, and the
identifier-level rules at `2` versus `10` and `rc` strings. -/
theorem pre_release_ordering_rules_witness :
    versionCmp (Version.new 1 0 0) ⟨1, 0, 0, [.numeric 1], none⟩ = .gt
    ∧ versionCmp ⟨1, 0, 0, [.numeric 1], none⟩
        ⟨1, 0, 0, [.alphaNumeric ("a")], none⟩
        = identListCmp [.numeric 1] [.alphaNumeric ("a")]
    ∧ versionCmp ⟨1, 0, 0, [.alphaNumeric ("rc1")], none⟩
        ⟨1, 0, 0, [.alphaNumeric ("rc1"), .numeric 0], none⟩ = .lt
    ∧ (identifierCmp (.numeric 2) (.numeric 10) = .lt ↔ 2 < 10)
    ∧ identifierCmp (.numeric 7) (.alphaNumeric ("a")) = .lt := by
  obtain ⟨hA, hB, hC, _hD, _⟩ := pre_release_ordering_rules
  refine ⟨?_, ?_, ?_, hB 2 10, hC 7 ("a")⟩
  · exact (hA (Version.new 1 0 0) ⟨1, 0, 0, [.numeric 1], none⟩
      rfl rfl rfl).1 rfl (by decide)
  · exact ((hA ⟨1, 0, 0, [.numeric 1], none⟩
      ⟨1, 0, 0, [.alphaNumeric ("a")], none⟩ rfl rfl rfl).2).1
      (by decide) (by decide)
  · exact ((hA ⟨1, 0, 0, [.alphaNumeric ("rc1")], none⟩
      ⟨1, 0, 0, [.alphaNumeric ("rc1"), .numeric 0], none⟩
      rfl rfl rfl).2).2 (by decide) [.numeric 0] (by decide) rfl

theorem rootDependenciesGo_cons_none (locked : List (String × Version))
    (name : String) (range : Range) (rest : List (String × Range))
    (acc : List (String × Dependency))
    (h : lookupAssoc locked name = none) :
    rootDependenciesGo locked ((name, range) :: rest) acc
      = rootDependenciesGo locked rest
          (insertAssoc acc name (Dependency.fromRange range)) := by
  rw [rootDependenciesGo, h]

theorem rootDependenciesGo_cons_some (locked : List (String × Version))
    (name : String) (range : Range) (rest : List (String × Range))
    (acc : List (String × Dependency)) (lv : Version)
    (h : lookupAssoc locked name = some lv) :
    rootDependenciesGo locked ((name, range) :: rest) acc
      = if range.range lv then rootDependenciesGo locked rest acc
        else .error ⟨name, range, lv⟩ := by
  rw [rootDependenciesGo, h]

theorem rootDependenciesGo_error (locked : List (String × Version))
    (reqs : List (String × Range)) (acc : List (String × Dependency))
    (n : String) (r : Range) (v : Version)
    (hmem : (n, r) ∈ reqs) (hlock : lookupAssoc locked n = some v)
    (hc : r.range v = false) :
    ∃ e : IncompatibleLockedVersion,
      rootDependenciesGo locked reqs acc = .error e
      ∧ (e.package, e.requirement) ∈ reqs
      ∧ lookupAssoc locked e.package = some e.version
      ∧ e.requirement.range e.version = false := by
  induction reqs generalizing acc with
  | nil => cases hmem
  | cons head rest ih =>
    obtain ⟨name, range⟩ := head
    cases hl : lookupAssoc locked name with
    | none =>
      rw [rootDependenciesGo_cons_none locked name range rest acc hl]
      have hmem' : (n, r) ∈ rest := by
        rcases List.mem_cons.mp hmem with heq | hmem'
        · have hn : n = name := congrArg Prod.fst heq
          rw [hn] at hlock
          exact Option.noConfusion (hl.symm.trans hlock)
        · exact hmem'
      obtain ⟨e, he, hp1, hp2, hp3⟩ := ih _ hmem'
      exact ⟨e, he, List.mem_cons_of_mem _ hp1, hp2, hp3⟩
    | some lv =>
      rw [rootDependenciesGo_cons_some locked name range rest acc lv hl]
      by_cases hcv : range.range lv = true
      · rw [if_pos hcv]
        have hmem' : (n, r) ∈ rest := by
          rcases List.mem_cons.mp hmem with heq | hmem'
          · have hn : n = name := congrArg Prod.fst heq
            have hr : r = range := congrArg Prod.snd heq
            rw [hn] at hlock
            have hv : lv = v := by
              have hsome := hl.symm.trans hlock
              injection hsome
            rw [hr] at hc
            rw [hv] at hcv
            rw [hc] at hcv
            cases hcv
          · exact hmem'
        obtain ⟨e, he, hp1, hp2, hp3⟩ := ih _ hmem'
        exact ⟨e, he, List.mem_cons_of_mem _ hp1, hp2, hp3⟩
      · rw [if_neg hcv]
        refine ⟨⟨name, range, lv⟩, rfl, List.mem_cons_self _ _, hl, ?_⟩
        simpa using hcv

/-- C3: if some caller-supplied root requirement names a package locked to a
version outside the requirement's range, then `resolve_versions` — for EVERY
solver and EVERY fetcher, showing neither is consulted — returns the
`IncompatibleLockedVersion` error, whose payload is an offending
requirement: a member of the caller-supplied requirements whose package is
locked to exactly the carried version, which the carried range does not
contain.  When the offending entry is unique, the payload is exactly that
entry and its locked version. -/
theorem resolveVersions_incompatible_locked
    (solver : DependencyProvider → String → Version →
      Except String (List (String × Version)))
    (remote : String → Except String Package) (rootName : String)
    (deps : List (String × Range)) (locked : List (String × Version))
    (n : String) (r : Range) (v : Version)
    (hmem : (n, r) ∈ deps) (hlock : lookupAssoc locked n = some v)
    (hc : r.range v = false) :
    ∃ e : IncompatibleLockedVersion,
      resolveVersions solver remote rootName deps locked
        = .error (.incompatibleLockedVersion e)
      ∧ (e.package, e.requirement) ∈ deps
      ∧ lookupAssoc locked e.package = some e.version
      ∧ e.requirement.range e.version = false
      ∧ ((∀ n' r' v', (n', r') ∈ deps → lookupAssoc locked n' = some v' →
            r'.range v' = false → n' = n ∧ r' = r) →
          e.package = n ∧ e.requirement = r ∧ e.version = v) := by
  obtain ⟨e, he, hp1, hp2, hp3⟩ :=
    rootDependenciesGo_error locked deps
      (locked.map fun nv => (nv.1, Dependency.fromVersion nv.2)) n r v
      hmem hlock hc
  refine ⟨e, ?_, hp1, hp2, hp3, ?_⟩
  · unfold resolveVersions rootDependencies
    rw [he]
  · intro huniq
    obtain ⟨hn, hr⟩ := huniq e.package e.requirement e.version hp1 hp2 hp3
    refine ⟨hn, hr, ?_⟩
    rw [hn] at hp2
    rw [hlock] at hp2
    injection hp2 with hv
    exact hv.symm

/-- Witness for C3: at the concrete inputs, the hypotheses hold and the
resolver reports the incompatibility without consulting solver or fetcher. -/
theorem resolveVersions_incompatible_locked_witness :
    (("a"), rangeNone) ∈ c3deps
    ∧ lookupAssoc c3locked ("a") = some (Version.new 1 0 0)
    ∧ rangeNone.range (Version.new 1 0 0) = false
    ∧ ∃ e : IncompatibleLockedVersion,
        resolveVersions (fun _ _ _ => .error ("")) (fun _ => .error (""))
            ("root") c3deps c3locked
          = .error (.incompatibleLockedVersion e)
        ∧ (e.package, e.requirement) ∈ c3deps
        ∧ lookupAssoc c3locked e.package = some e.version
        ∧ e.requirement.range e.version = false := by
  refine ⟨List.mem_cons_self _ _, rfl, rfl, ?_⟩
  obtain ⟨e, h1, h2, h3, h4, _⟩ :=
    resolveVersions_incompatible_locked (fun _ _ _ => .error (""))
      (fun _ => .error ("")) ("root") c3deps c3locked ("a") rangeNone
      (Version.new 1 0 0) (List.mem_cons_self _ _) rfl rfl
  exact ⟨e, h1, h2, h3, h4⟩

theorem maxStep_some (m a : Version) :
    maxStep (some m) a = if versionCmp a m = .lt then some m else some a :=
  rfl

theorem maxVersion_fold (l : List Version) : ∀ (m : Version),
    ∃ v, List.foldl maxStep (some m) l = some v
      ∧ (v = m ∨ v ∈ l) ∧ versionCmp m v ≠ .gt
      ∧ ∀ w ∈ l, versionCmp w v ≠ .gt := by
  induction l with
  | nil =>
    intro m
    refine ⟨m, rfl, Or.inl rfl, ?_, by simp⟩
    rw [versionCmp_self]
    simp
  | cons a l ih =>
    intro m
    rw [List.foldl_cons, maxStep_some]
    by_cases hlt : versionCmp a m = .lt
    · rw [if_pos hlt]
      obtain ⟨v, hfold, hmem, hle, hbound⟩ := ih m
      refine ⟨v, hfold, ?_, hle, ?_⟩
      · rcases hmem with h | h
        · exact Or.inl h
        · exact Or.inr (List.mem_cons_of_mem _ h)
      · intro w hw
        rcases List.mem_cons.mp hw with hwa | hwl
        · rw [hwa]
          exact versionCmp_le_trans (by simp [hlt]) hle
        · exact hbound w hwl
    · rw [if_neg hlt]
      obtain ⟨v, hfold, hmem, hle, hbound⟩ := ih a
      have hma : versionCmp m a ≠ .gt := by
        intro hg
        rw [versionCmp_swap] at hg
        rcases h : versionCmp a m with _ | _ | _
        · exact hlt h
        · rw [h] at hg; simp [Ordering.swap] at hg
        · rw [h] at hg; simp [Ordering.swap] at hg
      refine ⟨v, hfold, ?_, versionCmp_le_trans hma hle, ?_⟩
      · rcases hmem with h | h
        · exact Or.inr (h ▸ List.mem_cons_self _ _)
        · exact Or.inr (List.mem_cons_of_mem _ h)
      · intro w hw
        rcases List.mem_cons.mp hw with hwa | hwl
        · rw [hwa]; exact hle
        · exact hbound w hwl

theorem maxVersion_spec (l : List Version) (hl : l ≠ []) :
    ∃ v, maxVersion l = some v ∧ v ∈ l ∧ ∀ w ∈ l, versionCmp w v ≠ .gt := by
  cases l with
  | nil => exact absurd rfl hl
  | cons a t =>
    obtain ⟨v, hfold, hmem, hle, hbound⟩ := maxVersion_fold t a
    refine ⟨v, hfold, ?_, ?_⟩
    · rcases hmem with h | h
      · exact h ▸ List.mem_cons_self _ _
      · exact List.mem_cons_of_mem _ h
    · intro w hw
      rcases List.mem_cons.mp hw with hwa | hwl
      · rw [hwa]; exact hle
      · exact hbound w hwl

theorem chooseVersion_ok (p : DependencyProvider) (name : String)
    (range : PubgrubRange) (fetched : DependencyProvider)
    (hfetch : ensurePackageFetched p name = .ok fetched) :
    chooseVersion p name range
      = match maxVersion ((satVersions fetched name range).filter
            (fun v => !v.isPre)) with
        | some v => .ok (some v)
        | none => .ok (maxVersion (satVersions fetched name range)) := by
  unfold chooseVersion
  rw [hfetch]

/-- C4: for every provider state whose fetch of `name` succeeds and every
range, `choose_version` returns the maximum version among the package's
releases satisfying the range that is not a pre-release; when no satisfying
release is non-pre it returns the maximum satisfying (pre-release) version;
and when no release satisfies the range it returns no choice (`none`). -/
theorem chooseVersion_max (p : DependencyProvider) (name : String)
    (range : PubgrubRange) (fetched : DependencyProvider)
    (hfetch : ensurePackageFetched p name = .ok fetched) :
    ((satVersions fetched name range).filter (fun v => !v.isPre) ≠ [] →
      ∃ v, chooseVersion p name range = .ok (some v)
        ∧ v ∈ satVersions fetched name range ∧ v.isPre = false
        ∧ ∀ w ∈ satVersions fetched name range, w.isPre = false →
            versionCmp w v ≠ .gt)
    ∧ ((satVersions fetched name range).filter (fun v => !v.isPre) = [] →
        satVersions fetched name range ≠ [] →
      ∃ v, chooseVersion p name range = .ok (some v)
        ∧ v ∈ satVersions fetched name range
        ∧ ∀ w ∈ satVersions fetched name range, versionCmp w v ≠ .gt)
    ∧ (satVersions fetched name range = [] →
        chooseVersion p name range = .ok none) := by
  refine ⟨?_, ?_, ?_⟩
  · intro hne
    obtain ⟨v, hmax, hmem, hbound⟩ := maxVersion_spec _ hne
    obtain ⟨hmemsat, hpre⟩ := List.mem_filter.mp hmem
    refine ⟨v, ?_, hmemsat, by simpa using hpre, ?_⟩
    · rw [chooseVersion_ok p name range fetched hfetch, hmax]
    · intro w hw hwpre
      exact hbound w (List.mem_filter.mpr ⟨hw, by simp [hwpre]⟩)
  · intro hfil hne
    obtain ⟨v, hmax, hmem, hbound⟩ := maxVersion_spec _ hne
    refine ⟨v, ?_, hmem, hbound⟩
    rw [chooseVersion_ok p name range fetched hfetch, hfil, hmax]
    rfl
  · intro hsat
    rw [chooseVersion_ok p name range fetched hfetch, hsat]
    rfl

/-- Witness for C4: with `a` cached and an all-accepting range, the fetch
hypothesis holds and `choose_version` picks a maximal non-pre satisfying
version. -/
theorem chooseVersion_max_witness :
    ensurePackageFetched c4provider ("a") = .ok c4provider
    ∧ (satVersions c4provider ("a") rangeAll).filter (fun v => !v.isPre) ≠ []
    ∧ ∃ v, chooseVersion c4provider ("a") rangeAll = .ok (some v)
        ∧ v ∈ satVersions c4provider ("a") rangeAll ∧ v.isPre = false
        ∧ ∀ w ∈ satVersions c4provider ("a") rangeAll, w.isPre = false →
            versionCmp w v ≠ .gt := by
  refine ⟨rfl, by decide, ?_⟩
  exact (chooseVersion_max c4provider ("a") rangeAll c4provider rfl).1
    (by decide)

theorem providerGetDependencies_ok (p : DependencyProvider) (name : String)
    (version : Version) (fetched : DependencyProvider)
    (hfetch : ensurePackageFetched p name = .ok fetched) :
    providerGetDependencies p name version
      = match (releasesOf fetched name).find?
            (fun r => r.version == version) with
        | none =>
          .ok (fetched, .unavailable (("version ") ++ versionToString version
            ++ (" of package ") ++ name ++ (" not found")))
        | some release =>
          if release.isRetired
              && !(lookupAssoc fetched.locked name == some version) then
            .ok (fetched, .unavailable (("version ") ++ versionToString version
              ++ (" of package ") ++ name ++ (" is retired")))
          else
            .ok (fetched, .available (releaseDepsMap release.requirements)) := by
  unfold providerGetDependencies releaseDepsMap
  rw [hfetch]

theorem providerGetDependencies_found (p : DependencyProvider)
    (name : String) (version : Version) (fetched : DependencyProvider)
    (release : Release)
    (hfetch : ensurePackageFetched p name = .ok fetched)
    (hfind : (releasesOf fetched name).find? (fun r => r.version == version)
      = some release) :
    providerGetDependencies p name version
      = if release.isRetired
            && !(lookupAssoc fetched.locked name == some version) then
          .ok (fetched, .unavailable (("version ") ++ versionToString version
            ++ (" of package ") ++ name ++ (" is retired")))
        else
          .ok (fetched, .available (releaseDepsMap release.requirements)) := by
  rw [providerGetDependencies_ok p name version fetched hfetch, hfind]

/-- C5: when the located release exists, `get_dependencies` reports the
dependency set unavailable exactly when that release is retired and its
version is not the locked version for the package; a retired release whose
version equals the lock entry is treated as available and its requirement
ranges are returned. -/
theorem getDependencies_retirement (p : DependencyProvider) (name : String)
    (version : Version) (fetched : DependencyProvider) (release : Release)
    (hfetch : ensurePackageFetched p name = .ok fetched)
    (hfind : (releasesOf fetched name).find? (fun r => r.version == version)
      = some release) :
    ((∃ msg, providerGetDependencies p name version
        = .ok (fetched, .unavailable msg))
      ↔ (release.isRetired = true
          ∧ lookupAssoc fetched.locked name ≠ some version))
    ∧ (release.isRetired = true →
        lookupAssoc fetched.locked name = some version →
        providerGetDependencies p name version
          = .ok (fetched, .available (releaseDepsMap release.requirements))) := by
  rw [providerGetDependencies_found p name version fetched release hfetch hfind]
  by_cases hcond : (release.isRetired
      && !(lookupAssoc fetched.locked name == some version)) = true
  · rw [if_pos hcond]
    simp only [Bool.and_eq_true, Bool.not_eq_true', beq_eq_false_iff_ne] at hcond
    obtain ⟨hret, hne⟩ := hcond
    constructor
    · constructor
      · intro _
        exact ⟨hret, hne⟩
      · intro _
        exact ⟨_, rfl⟩
    · intro _ hlock
      exact absurd hlock hne
  · rw [if_neg hcond]
    simp only [Bool.and_eq_true, Bool.not_eq_true', beq_eq_false_iff_ne,
      not_and] at hcond
    constructor
    · constructor
      · intro ⟨msg, hmsg⟩
        exact absurd (congrArg Prod.snd (Except.ok.inj hmsg))
          (fun h => Dependencies.noConfusion h)
      · intro ⟨hret, hne⟩
        exact absurd hne (by simpa using hcond hret)
    · intro _ _
      rfl

/-- Witness for C5: with `a@1.0.0` retired but locked, the dependency set is
reported available (with the release's empty requirement map). -/
theorem getDependencies_retirement_witness :
    ensurePackageFetched c5provider ("a") = .ok c5provider
    ∧ (releasesOf c5provider ("a")).find?
        (fun r => r.version == Version.new 1 0 0) = some c5release
    ∧ providerGetDependencies c5provider ("a") (Version.new 1 0 0)
        = .ok (c5provider, .available []) := by
  refine ⟨rfl, rfl, ?_⟩
  exact (getDependencies_retirement c5provider ("a") (Version.new 1 0 0)
    c5provider c5release rfl rfl).2 rfl rfl

theorem releaseLe_isTotal : IsTotal Release releaseLe := by
  constructor
  intro a b
  by_cases h : versionCmp a.version b.version = .gt
  · right
    unfold releaseLe
    rw [versionCmp_swap, h]
    simp [Ordering.swap]
  · exact Or.inl h

theorem ensurePackageFetched_hit (p : DependencyProvider) (name : String)
    (pkg : Package) (hlook : lookupAssoc p.packages name = some pkg) :
    ensurePackageFetched p name = .ok p := by
  unfold ensurePackageFetched
  rw [hlook]

theorem ensurePackageFetched_miss (p : DependencyProvider) (name : String)
    (package : Package) (hlook : lookupAssoc p.packages name = none)
    (hremote : p.remote name = .ok package) :
    ensurePackageFetched p name
      = .ok ⟨insertAssoc p.packages name
          ⟨package.name, package.repository,
            (List.insertionSort releaseLe package.releases).reverse.filter
                (not ∘ Release.isPre)
              ++ (List.insertionSort releaseLe package.releases).reverse.filter
                Release.isPre⟩,
          p.remote, p.locked⟩ := by
  unfold ensurePackageFetched
  rw [hlook, hremote]
  simp only [List.partition_eq_filter_filter]

/-- C7: `ensure_package_fetched` is a fetch-once cache with a canonical
release order.  If the package is cached the provider state is returned
unchanged — for every fetcher, since the cached case holds for every
provider state — and otherwise the fetched package is stored with its
releases arranged as the non-pre releases in descending version order
followed by the pre releases in descending version order, a permutation of
the fetched release list, with name and repository unchanged. -/
theorem ensurePackageFetched_cache :
    (∀ (p : DependencyProvider) (name : String) (pkg : Package),
      lookupAssoc p.packages name = some pkg →
      ensurePackageFetched p name = .ok p)
    ∧ (∀ (p : DependencyProvider) (name : String) (package : Package),
        lookupAssoc p.packages name = none →
        p.remote name = .ok package →
        ∃ nonPre preRel : List Release,
          ensurePackageFetched p name
            = .ok ⟨insertAssoc p.packages name
                ⟨package.name, package.repository, nonPre ++ preRel⟩,
                p.remote, p.locked⟩
          ∧ (nonPre ++ preRel).Perm package.releases
          ∧ (∀ r ∈ nonPre, r.isPre = false)
          ∧ (∀ r ∈ preRel, r.isPre = true)
          ∧ nonPre.Pairwise releaseGe
          ∧ preRel.Pairwise releaseGe) := by
  constructor
  · intro p name pkg hlook
    exact ensurePackageFetched_hit p name pkg hlook
  · intro p name package hlook hremote
    refine ⟨(List.insertionSort releaseLe package.releases).reverse.filter
        (not ∘ Release.isPre),
      (List.insertionSort releaseLe package.releases).reverse.filter
        Release.isPre,
      ensurePackageFetched_miss p name package hlook hremote, ?_, ?_, ?_,
      ?_, ?_⟩
    · have h1 : ((List.insertionSort releaseLe package.releases).reverse.filter
          Release.isPre
          ++ (List.insertionSort releaseLe package.releases).reverse.filter
            (fun x => !Release.isPre x)).Perm
          (List.insertionSort releaseLe package.releases).reverse :=
        List.filter_append_perm _ _
      refine List.Perm.trans (List.Perm.trans List.perm_append_comm h1) ?_
      exact ((List.insertionSort releaseLe package.releases).reverse_perm).trans
        (List.perm_insertionSort releaseLe package.releases)
    · intro r hr
      have := (List.mem_filter.mp hr).2
      simpa using this
    · intro r hr
      exact (List.mem_filter.mp hr).2
    · refine List.Pairwise.sublist (List.filter_sublist _) ?_
      rw [List.pairwise_reverse]
      haveI : IsTrans Release releaseLe := ⟨fun _ _ _ => versionCmp_le_trans⟩
      haveI : IsTotal Release releaseLe := releaseLe_isTotal
      exact List.sorted_insertionSort releaseLe package.releases
    · refine List.Pairwise.sublist (List.filter_sublist _) ?_
      rw [List.pairwise_reverse]
      haveI : IsTrans Release releaseLe := ⟨fun _ _ _ => versionCmp_le_trans⟩
      haveI : IsTotal Release releaseLe := releaseLe_isTotal
      exact List.sorted_insertionSort releaseLe package.releases

/-- Witness for C7: the cached case leaves `c4provider` untouched, and the
uncached case stores `c7pkg` canonically ordered. -/
theorem ensurePackageFetched_cache_witness :
    lookupAssoc c4provider.packages ("a") = some c4pkg
    ∧ ensurePackageFetched c4provider ("a") = .ok c4provider
    ∧ lookupAssoc c7provider.packages ("b") = none
    ∧ c7provider.remote ("b") = .ok c7pkg
    ∧ ∃ nonPre preRel : List Release,
        ensurePackageFetched c7provider ("b")
          = .ok ⟨insertAssoc c7provider.packages ("b")
              ⟨c7pkg.name, c7pkg.repository, nonPre ++ preRel⟩,
              c7provider.remote, c7provider.locked⟩
        ∧ (nonPre ++ preRel).Perm c7pkg.releases
        ∧ (∀ r ∈ nonPre, r.isPre = false)
        ∧ (∀ r ∈ preRel, r.isPre = true)
        ∧ nonPre.Pairwise releaseGe
        ∧ preRel.Pairwise releaseGe := by
  refine ⟨rfl, ensurePackageFetched_cache.1 c4provider ("a") c4pkg rfl,
    rfl, rfl, ?_⟩
  exact ensurePackageFetched_cache.2 c7provider ("b") c7pkg rfl rfl

theorem lookupAssoc_singleton (k : String) (v : α) (q : String) :
    lookupAssoc [(k, v)] q = if k = q then some v else none := rfl

theorem insertAssoc_lookup (m : List (String × α)) (k : String) (v : α)
    (q : String) :
    lookupAssoc (insertAssoc m k v) q
      = if k = q then some v else lookupAssoc m q := by
  induction m with
  | nil => rfl
  | cons head rest ih =>
    obtain ⟨k', v'⟩ := head
    unfold insertAssoc
    by_cases hk : k' = k
    · rw [if_pos hk]
      unfold lookupAssoc
      by_cases hq : k = q
      · rw [if_pos hq, if_pos hq]
      · rw [if_neg hq, if_neg hq, if_neg (by rw [hk]; exact hq)]
    · rw [if_neg hk]
      unfold lookupAssoc
      by_cases hq : k' = q
      · rw [if_pos hq, if_neg (by rw [← hq]; exact fun h => hk h.symm),
          if_pos hq]
      · rw [if_neg hq, if_neg hq, ih]

theorem lookup_map_fromVersion (locked : List (String × Version))
    (n : String) (v : Version) (hmem : (n, v) ∈ locked) :
    ∃ d, lookupAssoc (locked.map fun nv => (nv.1, Dependency.fromVersion nv.2))
      n = some d := by
  induction locked with
  | nil => cases hmem
  | cons head rest ih =>
    obtain ⟨k, w⟩ := head
    rw [List.map_cons]
    unfold lookupAssoc
    by_cases hk : k = n
    · rw [if_pos hk]
      exact ⟨_, rfl⟩
    · rw [if_neg hk]
      rcases List.mem_cons.mp hmem with heq | hmem'
      · have : n = k := (congrArg Prod.fst heq : n = k)
        exact absurd this.symm hk
      · exact ih hmem'

theorem rootDependenciesGo_preserves (locked : List (String × Version))
    (reqs : List (String × Range)) :
    ∀ (acc res : List (String × Dependency)) (n : String),
      rootDependenciesGo locked reqs acc = .ok res →
      (∃ d, lookupAssoc acc n = some d) →
      ∃ d, lookupAssoc res n = some d := by
  induction reqs with
  | nil =>
    intro acc res n hok hacc
    rw [rootDependenciesGo] at hok
    injection hok with h
    rw [← h]
    exact hacc
  | cons head rest ih =>
    obtain ⟨name, range⟩ := head
    intro acc res n hok hacc
    cases hl : lookupAssoc locked name with
    | none =>
      rw [rootDependenciesGo_cons_none locked name range rest acc hl] at hok
      refine ih _ res n hok ?_
      obtain ⟨d, hd⟩ := hacc
      rw [insertAssoc_lookup]
      by_cases hq : name = n
      · rw [if_pos hq]; exact ⟨_, rfl⟩
      · rw [if_neg hq]; exact ⟨d, hd⟩
    | some lv =>
      rw [rootDependenciesGo_cons_some locked name range rest acc lv hl]
        at hok
      by_cases hcv : range.range lv = true
      · rw [if_pos hcv] at hok
        exact ih acc res n hok hacc
      · rw [if_neg hcv] at hok
        cases hok

theorem resolveVersions_ok_inv
    (solver : DependencyProvider → String → Version →
      Except String (List (String × Version)))
    (remote : String → Except String Package) (rootName : String)
    (deps : List (String × Range)) (locked : List (String × Version))
    (m : List (String × Version))
    (hok : resolveVersions solver remote rootName deps locked = .ok m) :
    ∃ reqs res,
      rootDependencies deps locked = .ok reqs
      ∧ solver (DependencyProvider.new remote (rootPackage rootName reqs)
          locked) rootName (Version.new 0 0 0) = .ok res
      ∧ m = res.filter (fun nv => !(nv.1 == rootName)) := by
  unfold resolveVersions at hok
  cases h1 : rootDependencies deps locked with
  | error e => rw [h1] at hok; cases hok
  | ok reqs =>
    rw [h1] at hok
    have hok2 : (match solver (DependencyProvider.new remote
          (rootPackage rootName reqs) locked) rootName (Version.new 0 0 0) with
        | .error e => Except.error (DependencyError.resolutionError e)
        | .ok packages =>
          Except.ok (packages.filter (fun nv => !(nv.1 == rootName))))
        = Except.ok m := hok
    cases h2 : solver (DependencyProvider.new remote
        (rootPackage rootName reqs) locked) rootName (Version.new 0 0 0) with
    | error e => rw [h2] at hok2; cases hok2
    | ok res =>
      rw [h2] at hok2
      injection hok2 with h
      exact ⟨reqs, res, rfl, h2, h.symm⟩

/-- C10: whenever `resolve_versions` succeeds, the returned map has an entry
for every name in the locked map.  Every locked entry is recorded as a
mandatory root dependency, so any solver satisfying the PubGrub solution
contract — every dependency of the synthetic root is assigned a version in
the solution, and a successful solve implies the root does not appear among
its own dependencies — must assign it, and the root filter cannot remove
it. -/
theorem resolveVersions_includes_locked
    (solver : DependencyProvider → String → Version →
      Except String (List (String × Version)))
    (remote : String → Except String Package) (rootName : String)
    (deps : List (String × Range)) (locked : List (String × Version))
    (m : List (String × Version))
    (hok : resolveVersions solver remote rootName deps locked = .ok m)
    (hcontract : ∀ reqs res,
      rootDependencies deps locked = .ok reqs →
      solver (DependencyProvider.new remote (rootPackage rootName reqs)
        locked) rootName (Version.new 0 0 0) = .ok res →
      (∀ q d, lookupAssoc reqs q = some d → ∃ w, (q, w) ∈ res)
      ∧ lookupAssoc reqs rootName = none) :
    ∀ n v, (n, v) ∈ locked → ∃ w, (n, w) ∈ m := by
  obtain ⟨reqs, res, h1, h2, h3⟩ :=
    resolveVersions_ok_inv solver remote rootName deps locked m hok
  obtain ⟨hsat, hnoself⟩ := hcontract reqs res h1 h2
  intro n v hmem
  obtain ⟨d0, hd0⟩ := lookup_map_fromVersion locked n v hmem
  obtain ⟨d, hd⟩ := rootDependenciesGo_preserves locked deps _ reqs n h1
    ⟨d0, hd0⟩
  obtain ⟨w, hw⟩ := hsat n d hd
  have hne : n ≠ rootName := by
    intro he
    rw [he, hnoself] at hd
    cases hd
  refine ⟨w, ?_⟩
  rw [h3]
  refine List.mem_filter.mpr ⟨hw, ?_⟩
  simp [hne]

/-- Witness for C10: with no root requirements and `a` only locked, a
successful solve still assigns `a`. -/
theorem resolveVersions_includes_locked_witness :
    resolveVersions c10solver c10remote ("root") [] c10locked
      = .ok [(("a"), Version.new 1 0 0)]
    ∧ ∀ n v, (n, v) ∈ c10locked →
        ∃ w, (n, w) ∈ [(("a"), Version.new 1 0 0)] := by
  have hok : resolveVersions c10solver c10remote ("root") [] c10locked
      = .ok [(("a"), Version.new 1 0 0)] := rfl
  refine ⟨hok, ?_⟩
  refine resolveVersions_includes_locked c10solver c10remote ("root") []
    c10locked _ hok ?_
  intro reqs res h1 h2
  have hreqs : reqs = [(("a"), Dependency.fromVersion (Version.new 1 0 0))] := by
    have h1' : Except.ok (ε := IncompatibleLockedVersion)
        [(("a"), Dependency.fromVersion (Version.new 1 0 0))] = .ok reqs :=
      Eq.trans rfl h1
    injection h1' with h
    exact h.symm
  have hres : res = [(("root"), Version.new 0 0 0),
      (("a"), Version.new 1 0 0)] := by
    have h2' : Except.ok (ε := String) [(("root"), Version.new 0 0 0),
        (("a"), Version.new 1 0 0)] = .ok res := Eq.trans rfl h2
    injection h2' with h
    exact h.symm
  subst hreqs
  subst hres
  constructor
  · intro q d hd
    rw [lookupAssoc_singleton] at hd
    by_cases hq : ("a" : String) = q
    · refine ⟨Version.new 1 0 0, ?_⟩
      rw [← hq]
      exact List.mem_cons_of_mem _ (List.mem_cons_self _ _)
    · rw [if_neg hq] at hd
      cases hd
  · rfl

theorem readAndCheckBodyAux_bounded (n : Nat) :
    ∀ input hashed body : List Nat, input.length ≤ n →
      readAndCheckBodyAux input hashed body
        = (hashed ++ input, body ++ input) := by
  induction n with
  | zero =>
    intro input hashed body hlen
    have : input = [] := List.eq_nil_of_length_eq_zero (Nat.le_zero.mp hlen)
    subst this
    rw [readAndCheckBodyAux]
    simp
  | succ n ih =>
    intro input hashed body hlen
    rw [readAndCheckBodyAux]
    by_cases he : input.isEmpty
    · rw [if_pos he]
      have : input = [] := List.isEmpty_iff.mp he
      subst this
      simp
    · rw [if_neg he]
      have hne : input ≠ [] := by
        intro h
        rw [h] at he
        simp at he
      have hlt : (input.drop 1024).length ≤ n := by
        rw [List.length_drop]
        have : 0 < input.length := List.length_pos.mpr hne
        omega
      rw [ih _ _ _ hlt, List.append_assoc, List.append_assoc,
        List.take_append_drop]

theorem readAndCheckBodyAux_spec (input hashed body : List Nat) :
    readAndCheckBodyAux input hashed body
      = (hashed ++ input, body ++ input) :=
  readAndCheckBodyAux_bounded input.length input hashed body (Nat.le_refl _)

/-- C9: for every tarball body and caller-supplied digest,
`get_package_tarball_response` (via `read_and_check_body`) returns the body
bytes verbatim exactly when the digest of the body equals the supplied
checksum, and the `IncorrectChecksum` error otherwise. -/
theorem tarball_checksum_verified (sha256 : List Nat → List Nat)
    (body checksum : List Nat) :
    (sha256 body = checksum →
      getPackageTarballResponse sha256 200 body checksum = .ok body)
    ∧ (sha256 body ≠ checksum →
      getPackageTarballResponse sha256 200 body checksum
        = .error .incorrectChecksum) := by
  unfold getPackageTarballResponse readAndCheckBody
  rw [if_pos (by rfl : ((200 : Nat) == 200) = true)]
  rw [readAndCheckBodyAux_spec]
  simp only [List.nil_append]
  constructor
  · intro h
    rw [if_pos (by rw [beq_iff_eq]; exact h)]
  · intro h
    rw [if_neg (by rw [beq_iff_eq]; exact h)]

/-- Witness for C9 with the identity function standing in for the digest:
a matching checksum returns the bytes, a mismatched one fails. -/
theorem tarball_checksum_verified_witness :
    getPackageTarballResponse (fun l => l) 200 [1, 2, 3] [1, 2, 3]
      = .ok [1, 2, 3]
    ∧ getPackageTarballResponse (fun l => l) 200 [1, 2, 3] [0]
      = .error .incorrectChecksum := by
  constructor
  · exact (tarball_checksum_verified (fun l => l) [1, 2, 3] [1, 2, 3]).1 rfl
  · exact (tarball_checksum_verified (fun l => l) [1, 2, 3] [0]).2
      (by decide)

/-- C8: the claim that `get_package_response` surfaces a malformed release
version string as an `ApiError` FAILS on the code: `proto_to_release`
unwraps the parse with `.expect`, so decoding a release whose `version`
field is `"1.0"` panics (aborting the program) instead of returning a parse
error. -/
theorem protoToRelease_panics :
    parseVersion ("1.0") = none
    ∧ protoToRelease (fun _ => none) c8proto
        = .panics ("Failed to parse version format from Hex") := by
  exact ⟨rfl, rfl⟩

end Hexpm
